import Mathlib

/-!
Verification of the rag-document-chat retrieval pipeline.

Shallow embedding of the Python sources `ingest.py`, `vector_store.py`,
`rag_chain.py` (and their use from `app.py`).  Pure functions are translated
directly; the external collaborators (Chroma storage, the embedding model, the
HuggingFace generation endpoint, the document parsers) are injected as explicit
function parameters, and fallible calls return `Except`/`Option` values.
-/

namespace RagChat

/-! ## Data model

Documents flowing through the pipeline are LangChain `Document` values: a
`page_content` string plus a metadata dict.  `ingest.py` only ever writes the
keys `source`, `page`, `chunk`, `type`, `columns`, so the open Python dict is
embedded as a closed record of optional fields (`none` = key absent). -/

structure Metadata where
  source : Option String
  page : Option Nat
  chunk : Option Nat
  type : Option String
  columns : Option String
deriving DecidableEq, Repr

structure Doc where
  page_content : String
  metadata : Metadata
deriving DecidableEq, Repr

/-- Python `metadata.get(key, "")` interpolated into an f-string: an absent
value prints as `""`, a present int prints in decimal. -/
def optNatStr : Option Nat → String
  | none => ""
  | some n => toString n

/-- Python truthiness of `metadata.get(key, "")`: `""` is falsy, an int is
truthy iff nonzero. -/
def optTruthy : Option Nat → Bool
  | none => false
  | some n => n != 0

/-! ## rag_chain._extract_sources (rag_chain.py lines 78-99) -/

structure Citation where
  source : String
  type : String
  page : Option Nat
  chunk : Option Nat
  snippet : String
deriving DecidableEq, Repr

/-- The dedup key `f"{source}-p{page}-c{chunk}"` from rag_chain.py line 88. -/
def mkKey (d : Doc) : String :=
  (d.metadata.source.getD "Unknown") ++ "-p" ++ optNatStr d.metadata.page
    ++ "-c" ++ optNatStr d.metadata.chunk

/-- rag_chain.py line 97: `doc.page_content[:150] + "..." if len(doc.page_content) > 150
else doc.page_content`.  Python slices strings by code point, so `[:150]` is
`String.mk (content.data.take 150)`. -/
def mkSnippet (content : String) : String :=
  if content.length > 150 then String.mk (content.data.take 150) ++ "..." else content

/-- One citation dict as built in rag_chain.py lines 91-97; `page`/`chunk`
are included only when truthy (`if page:` / `if chunk:`). -/
def mkCitation (d : Doc) : Citation :=
  ⟨d.metadata.source.getD "Unknown",
   d.metadata.type.getD "",
   if optTruthy d.metadata.page then d.metadata.page else none,
   if optTruthy d.metadata.chunk then d.metadata.chunk else none,
   mkSnippet d.page_content⟩

/-- The loop of `_extract_sources`: `seen` is the set of keys already emitted
(a Python `set`, used only through membership, so a list suffices). -/
def extractSources : List Doc → List String → List Citation
  | [], _ => []
  | d :: ds, seen =>
    let key := mkKey d
    if key ∈ seen then extractSources ds seen
    else mkCitation d :: extractSources ds (key :: seen)

/-- Reference function for the spec sentence "at most one Citation per key,
first-seen order preserved": keep the first occurrence of every key, in order.
Stated from the spec's words, to be compared with `extractSources`. -/
def dedupKeysSpec : List String → List String
  | [] => []
  | k :: ks => k :: dedupKeysSpec (ks.filter (fun k2 => k2 != k))
termination_by l => l.length
decreasing_by
  simp only [List.length_cons]
  exact Nat.lt_succ_of_le (List.length_filter_le _ _)

theorem dedupKeysSpec_subset : ∀ l : List String, ∀ k, k ∈ dedupKeysSpec l → k ∈ l
  | [], _, h => by simp [dedupKeysSpec] at h
  | a :: l, k, h => by
    rw [dedupKeysSpec] at h
    rcases List.mem_cons.mp h with h | h
    · exact h ▸ List.mem_cons_self _ _
    · exact List.mem_cons_of_mem _ (List.mem_of_mem_filter (dedupKeysSpec_subset _ k h))
termination_by l => l.length
decreasing_by
  simp only [List.length_cons]
  exact Nat.lt_succ_of_le (List.length_filter_le _ _)

theorem dedupKeysSpec_nodup : ∀ l : List String, (dedupKeysSpec l).Nodup
  | [] => by simp [dedupKeysSpec]
  | a :: l => by
    rw [dedupKeysSpec]
    refine List.nodup_cons.mpr ⟨fun hmem => ?_, dedupKeysSpec_nodup _⟩
    have := List.of_mem_filter (dedupKeysSpec_subset _ a hmem)
    simp at this
termination_by l => l.length
decreasing_by
  simp only [List.length_cons]
  exact Nat.lt_succ_of_le (List.length_filter_le _ _)

theorem extractSources_spec : ∀ (docs : List Doc) (seen : List String),
    ∃ kept : List Doc,
      kept.Sublist docs
      ∧ extractSources docs seen = kept.map mkCitation
      ∧ kept.map mkKey
          = dedupKeysSpec ((docs.map mkKey).filter (fun k => !(seen.contains k))) := by
  intro docs
  induction docs with
  | nil => intro seen; exact ⟨[], List.Sublist.refl _, rfl, by simp [dedupKeysSpec]⟩
  | cons d ds ih =>
    intro seen
    by_cases hk : mkKey d ∈ seen
    · obtain ⟨kept, hsub, hex, hkeys⟩ := ih seen
      refine ⟨kept, hsub.cons _, ?_, ?_⟩
      · simpa [extractSources, hk] using hex
      · simpa [List.filter_cons, hk] using hkeys
    · obtain ⟨kept, hsub, hex, hkeys⟩ := ih (mkKey d :: seen)
      refine ⟨d :: kept, hsub.cons₂ _, ?_, ?_⟩
      · simpa [extractSources, hk] using hex
      · have hff : ∀ l : List String,
            (l.filter (fun k => !(seen.contains k))).filter (fun k2 => k2 != mkKey d)
              = l.filter (fun k => !(((mkKey d :: seen)).contains k)) := by
          intro l
          rw [List.filter_filter]
          apply List.filter_congr
          intro x _
          simp only [List.contains_cons, Bool.not_or, bne]
        have hstep : ((d :: ds).map mkKey).filter (fun k => !(seen.contains k))
            = mkKey d :: (ds.map mkKey).filter (fun k => !(seen.contains k)) := by
          simp [List.filter_cons, hk]
        rw [List.map_cons, hstep, dedupKeysSpec, hff, ← hkeys]

/-- C2: citation extraction (`_extract_sources`, rag_chain.py 78-99) emits the
citations of a subsequence of the input whose keys are exactly the first
occurrences, in input (= rank) order, of the keys of all inputs, with no key
repeated; and two results sharing the same (source, page, chunk) metadata yield
exactly one citation. -/
theorem C2_citation_dedup :
    (∀ docs : List Doc, ∃ kept : List Doc,
        kept.Sublist docs
        ∧ extractSources docs [] = kept.map mkCitation
        ∧ (kept.map mkKey).Nodup
        ∧ kept.map mkKey = dedupKeysSpec (docs.map mkKey))
    ∧ (∀ d1 d2 : Doc, d1.metadata.source = d2.metadata.source →
        d1.metadata.page = d2.metadata.page → d1.metadata.chunk = d2.metadata.chunk →
        (extractSources [d1, d2] []).length = 1) := by
  constructor
  · intro docs
    obtain ⟨kept, hsub, hex, hkeys⟩ := extractSources_spec docs []
    have hfilter : (docs.map mkKey).filter (fun k => !(([] : List String).contains k))
        = docs.map mkKey := by
      simp
    rw [hfilter] at hkeys
    exact ⟨kept, hsub, hex, hkeys ▸ dedupKeysSpec_nodup _, hkeys⟩
  · intro d1 d2 h1 h2 h3
    have hkey : mkKey d2 = mkKey d1 := by simp [mkKey, h1, h2, h3]
    simp [extractSources, hkey]

def docDupA : Doc := ⟨"alpha content", ⟨some "a.pdf", some 1, some 1, some "pdf", none⟩⟩

def docDupB : Doc := ⟨"beta content", ⟨some "a.pdf", some 1, some 1, some "pdf", none⟩⟩

/-- Witness for C2 at two concrete results sharing (source, page, chunk). -/
theorem C2_citation_dedup_witness :
    docDupA.metadata.source = docDupB.metadata.source
    ∧ docDupA.metadata.page = docDupB.metadata.page
    ∧ docDupA.metadata.chunk = docDupB.metadata.chunk
    ∧ (extractSources [docDupA, docDupB] []).length = 1 :=
  ⟨rfl, rfl, rfl, C2_citation_dedup.2 docDupA docDupB rfl rfl rfl⟩

def longContent : String := String.mk (List.replicate 151 'a')

def longDoc : Doc := ⟨longContent, ⟨some "a.pdf", some 1, some 1, some "pdf", none⟩⟩

def shortDoc : Doc := ⟨"short", ⟨some "b.pdf", none, none, some "pdf", none⟩⟩

theorem longDoc_length : longDoc.page_content.length = 151 := by
  show (List.replicate 151 'a').length = 151
  simp

theorem dots_length : ("..." : String).length = 3 := rfl

/-- C3 counterexample: on a 151-character chunk content the snippet built at
rag_chain.py line 97 is the 150-character truncation PLUS `"..."`, i.e. 153
characters — the claim "the snippet string never exceeds 150 characters" is
false on the code. -/
theorem C3_snippet_length_counterexample :
    150 < longDoc.page_content.length
    ∧ (mkCitation longDoc).snippet.length = 153
    ∧ ¬ (mkCitation longDoc).snippet.length ≤ 150 := by
  have h : (mkCitation longDoc).snippet.length = 153 := by
    have h150 : (longDoc.page_content.data.take 150).length = 150 := by
      show ((List.replicate 151 'a').take 150).length = 150
      simp
    have hgt : 150 < longDoc.page_content.length := by rw [longDoc_length]; omega
    simp only [mkCitation, mkSnippet, if_pos hgt, String.length_append, dots_length]
    have hmk : (String.mk (longDoc.page_content.data.take 150)).length = 150 := h150
    omega
  refine ⟨by rw [longDoc_length]; omega, h, by omega⟩

/-- C3 (amended): the snippet is the content truncated to its first 150
characters with the trailing marker `"..."` appended (153 characters in total)
when the content exceeds 150 characters, and the full content otherwise; so
the snippet never exceeds max(content length, 153) characters, but it can
exceed 150. -/
theorem C3_snippet_amended (d : Doc) :
    (150 < d.page_content.length →
      (mkCitation d).snippet = String.mk (d.page_content.data.take 150) ++ "..."
      ∧ (mkCitation d).snippet.length = 153)
    ∧ (d.page_content.length ≤ 150 → (mkCitation d).snippet = d.page_content)
    ∧ (mkCitation d).snippet.length ≤ max d.page_content.length 153 := by
  have hlen : d.page_content.length = d.page_content.data.length := rfl
  have hbig : 150 < d.page_content.length →
      (mkCitation d).snippet.length = 153 := by
    intro h
    have h150 : (d.page_content.data.take 150).length = 150 := by
      rw [List.length_take]
      omega
    simp only [mkCitation, mkSnippet, if_pos h, String.length_append, dots_length]
    have hmk : (String.mk (d.page_content.data.take 150)).length = 150 := h150
    omega
  refine ⟨fun h => ⟨by simp [mkCitation, mkSnippet, h], hbig h⟩,
    fun h => by simp [mkCitation, mkSnippet, Nat.not_lt.mpr h], ?_⟩
  by_cases h : 150 < d.page_content.length
  · have := hbig h
    omega
  · simp only [mkCitation, mkSnippet, if_neg h]
    omega

/-- Witness for C3 (amended) at a 151-character content and a short content. -/
theorem C3_snippet_amended_witness :
    (150 < longDoc.page_content.length ∧ (mkCitation longDoc).snippet.length = 153)
    ∧ (shortDoc.page_content.length ≤ 150
        ∧ (mkCitation shortDoc).snippet = shortDoc.page_content) :=
  ⟨⟨by rw [longDoc_length]; omega,
    ((C3_snippet_amended longDoc).1 (by rw [longDoc_length]; omega)).2⟩,
   ⟨by decide, (C3_snippet_amended shortDoc).2.1 (by decide)⟩⟩

/-! ## vector_store.py

The Chroma collection is the persistent state: a list of records in insertion
order.  The embedding model is opaque, so similarity of a stored text against a
query is injected as a score function `String → String → ℚ` (cosine similarity,
higher = more relevant; modelled over ℚ since only the ordering matters). -/

structure VRecord where
  id : String
  text : String
  metadata : Metadata
deriving DecidableEq, Repr

/-- A stored record together with its insertion position and its similarity
score against the current query. -/
structure Scored where
  record : VRecord
  pos : Nat
  score : ℚ
deriving DecidableEq, Repr

/-- Result ranking order: higher score first, ties by earliest insertion. -/
def rankLE (a b : Scored) : Prop :=
  b.score < a.score ∨ (a.score = b.score ∧ a.pos ≤ b.pos)

instance : DecidableRel rankLE := fun a b =>
  inferInstanceAs (Decidable (b.score < a.score ∨ (a.score = b.score ∧ a.pos ≤ b.pos)))

instance : IsTotal Scored rankLE where
  total a b := by
    rcases lt_trichotomy a.score b.score with h | h | h
    · exact Or.inr (Or.inl h)
    · rcases Nat.le_total a.pos b.pos with hp | hp
      · exact Or.inl (Or.inr ⟨h, hp⟩)
      · exact Or.inr (Or.inr ⟨h.symm, hp⟩)
    · exact Or.inl (Or.inl h)

instance : IsTrans Scored rankLE where
  trans a b c hab hbc := by
    rcases hab with hab | ⟨hab, hab'⟩ <;> rcases hbc with hbc | ⟨hbc, hbc'⟩
    · exact Or.inl (lt_trans hbc hab)
    · exact Or.inl (hbc ▸ hab)
    · exact Or.inl (hab ▸ hbc)
    · exact Or.inr ⟨hab.trans hbc, le_trans hab' hbc'⟩

/-- Attach insertion positions (starting at `i`) and query scores. -/
def scoredFrom (σ : String → ℚ) (i : Nat) : List VRecord → List Scored
  | [] => []
  | r :: rs => ⟨r, i, σ r.text⟩ :: scoredFrom σ (i + 1) rs

/-- Modelled from the spec: `collection.query` of the Chroma collaborator is
not part of src/; per the spec it returns the stored records ranked by
descending similarity score, ties broken by earliest insertion. -/
def chromaRank (σ : String → ℚ) (st : List VRecord) : List Scored :=
  List.insertionSort rankLE (scoredFrom σ 0 st)

/-- Modelled from the spec: `collection.query(..., n_results=k)` keeps the
first `k` of the ranking. -/
def chromaQuery (σ : String → ℚ) (st : List VRecord) (k : Nat) : List Scored :=
  (chromaRank σ st).take k

/-- `search` (vector_store.py lines 61-93): empty-index guard, clamp
`k = min(k, count)`, query, and rebuild `Document`s from the returned texts and
metadatas. -/
def search (σ : String → String → ℚ) (st : List VRecord) (query : String)
    (k : Nat) : List Doc :=
  let count := st.length
  if count = 0 then []
  else
    let k' := min k count
    (chromaQuery (σ query) st k').map (fun s => ⟨s.record.text, s.record.metadata⟩)

theorem scoredFrom_length (σ : String → ℚ) :
    ∀ (i : Nat) (rs : List VRecord), (scoredFrom σ i rs).length = rs.length
  | _, [] => rfl
  | i, _ :: rs => by simp [scoredFrom, scoredFrom_length σ (i + 1) rs]

theorem chromaRank_length (σ : String → ℚ) (st : List VRecord) :
    (chromaRank σ st).length = st.length := by
  rw [chromaRank, (List.perm_insertionSort rankLE _).length_eq, scoredFrom_length]

/-- C1: on an index of `n` stored records, `search` returns exactly
`min k n` results; an empty index yields an empty list (no error — `search` is
total); the ranking is sorted by descending score with ties broken by earliest
insertion position (`rankLE`); every returned record ranks at least as high as
every record not returned; and the returned documents are exactly the text and
metadata of the `min k n` highest-ranked records. -/
theorem C1_search_topk (σ : String → String → ℚ) (st : List VRecord)
    (q : String) (k : Nat) :
    (search σ st q k).length = min k st.length
    ∧ search σ [] q k = []
    ∧ (chromaQuery (σ q) st (min k st.length)).Pairwise rankLE
    ∧ ((chromaQuery (σ q) st (min k st.length)).all fun a =>
        ((chromaRank (σ q) st).drop (min k st.length)).all fun b =>
          decide (rankLE a b)) = true
    ∧ search σ st q k
        = (chromaQuery (σ q) st (min k st.length)).map
            (fun s => ⟨s.record.text, s.record.metadata⟩) := by
  have hsorted : (chromaRank (σ q) st).Pairwise rankLE :=
    List.sorted_insertionSort rankLE _
  have hlenR : (chromaRank (σ q) st).length = st.length := chromaRank_length _ _
  refine ⟨?_, ?_, ?_, ?_, ?_⟩
  · by_cases h : st.length = 0
    · simp [search, h, Nat.min_zero]
    · simp only [search, if_neg h, List.length_map, chromaQuery, List.length_take, hlenR]
      omega
  · simp [search]
  · exact List.Pairwise.sublist (List.take_sublist _ _) hsorted
  · rw [List.all_eq_true]
    intro a ha
    rw [List.all_eq_true]
    intro b hb
    rw [decide_eq_true_eq]
    have hsplit := (List.take_append_drop (min k st.length) (chromaRank (σ q) st)) ▸ hsorted
    exact ((List.pairwise_append.mp hsplit).2.2) a ha b hb
  · cases st with
    | nil => simp [search, chromaQuery, chromaRank, scoredFrom]
    | cons r rs => rfl

/-! ## Decimal representation facts

`add_documents` builds record ids with f-strings (`f"doc_{i}_..."`), so
reasoning about id collisions needs facts about `Nat.repr`: its characters are
decimal digits (hence never `'_'`) and it is injective. -/

theorem toDigitsCore_append (b : Nat) :
    ∀ (fuel n : Nat) (ds : List Char),
      Nat.toDigitsCore b fuel n ds = Nat.toDigitsCore b fuel n [] ++ ds
  | 0, _, _ => rfl
  | fuel + 1, n, ds => by
    simp only [Nat.toDigitsCore]
    by_cases h : n / b = 0
    · simp [h]
    · rw [if_neg h, if_neg h,
        toDigitsCore_append b fuel (n / b) (Nat.digitChar (n % b) :: ds),
        toDigitsCore_append b fuel (n / b) [Nat.digitChar (n % b)],
        List.append_assoc, List.singleton_append]

theorem toDigitsCore_fuel :
    ∀ (f1 f2 n : Nat), n < f1 → n < f2 →
      Nat.toDigitsCore 10 f1 n [] = Nat.toDigitsCore 10 f2 n []
  | f1 + 1, f2 + 1, n, h1, h2 => by
    simp only [Nat.toDigitsCore]
    by_cases h : n / 10 = 0
    · simp [h]
    · rw [if_neg h, if_neg h,
        toDigitsCore_append 10 f1 (n / 10) [Nat.digitChar (n % 10)],
        toDigitsCore_append 10 f2 (n / 10) [Nat.digitChar (n % 10)]]
      have hlt : n / 10 < n := Nat.div_lt_self (by omega) (by omega)
      rw [toDigitsCore_fuel f1 f2 (n / 10) (by omega) (by omega)]

/-- Plain structural form of the decimal digit list of `n` (most significant
first), used as a bridge to reason about `Nat.repr`. -/
def reprAux (n : Nat) : List Char :=
  if n < 10 then [Nat.digitChar n]
  else reprAux (n / 10) ++ [Nat.digitChar (n % 10)]
decreasing_by
  exact Nat.div_lt_self (by omega) (by omega)

theorem reprAux_lt (n : Nat) (h : n < 10) : reprAux n = [Nat.digitChar n] := by
  rw [reprAux, if_pos h]

theorem reprAux_ge (n : Nat) (h : ¬ n < 10) :
    reprAux n = reprAux (n / 10) ++ [Nat.digitChar (n % 10)] := by
  rw [reprAux, if_neg h]

theorem toDigits_eq_reprAux : ∀ n : Nat, Nat.toDigits 10 n = reprAux n := by
  intro n
  induction n using Nat.strong_induction_on with
  | _ n ih =>
    rw [Nat.toDigits]
    by_cases h : n < 10
    · have h0 : n / 10 = 0 := Nat.div_eq_of_lt h
      simp only [Nat.toDigitsCore, h0, if_pos]
      rw [reprAux_lt n h, Nat.mod_eq_of_lt h]
    · have h0 : n / 10 ≠ 0 := by
        intro hc
        have := (Nat.div_eq_zero_iff (by omega : 0 < 10)).mp hc
        omega
      have hlt : n / 10 < n := Nat.div_lt_self (by omega) (by omega)
      simp only [Nat.toDigitsCore, h0, if_neg, if_false]
      rw [toDigitsCore_append 10 n (n / 10) [Nat.digitChar (n % 10)],
        toDigitsCore_fuel n (n / 10 + 1) (n / 10) (by omega) (by omega)]
      have : Nat.toDigitsCore 10 (n / 10 + 1) (n / 10) [] = Nat.toDigits 10 (n / 10) := rfl
      rw [this, ih (n / 10) hlt, reprAux_ge n h]

theorem digitChar_isDigit_of_lt : ∀ m : Nat, m < 10 → (Nat.digitChar m).isDigit = true := by
  decide

theorem digitChar_inj_of_lt :
    ∀ a : Nat, a < 10 → ∀ b : Nat, b < 10 → Nat.digitChar a = Nat.digitChar b → a = b := by
  decide

theorem reprAux_isDigit : ∀ n : Nat, ∀ c ∈ reprAux n, c.isDigit = true := by
  intro n
  induction n using Nat.strong_induction_on with
  | _ n ih =>
    intro c hc
    rw [reprAux] at hc
    by_cases h : n < 10
    · rw [if_pos h] at hc
      simp only [List.mem_singleton] at hc
      exact hc ▸ digitChar_isDigit_of_lt n h
    · rw [if_neg h] at hc
      rcases List.mem_append.mp hc with hc | hc
      · exact ih (n / 10) (Nat.div_lt_self (by omega) (by omega)) c hc
      · simp only [List.mem_singleton] at hc
        exact hc ▸ digitChar_isDigit_of_lt _ (Nat.mod_lt _ (by omega))

theorem reprAux_ne_nil (n : Nat) : reprAux n ≠ [] := by
  rw [reprAux]
  by_cases h : n < 10
  · simp [h]
  · simp [h]

theorem reprAux_inj : ∀ m n : Nat, reprAux m = reprAux n → m = n := by
  intro m
  induction m using Nat.strong_induction_on with
  | _ m ih =>
    intro n h
    by_cases hm : m < 10 <;> by_cases hn : n < 10
    · rw [reprAux_lt m hm, reprAux_lt n hn] at h
      simp only [List.cons.injEq, and_true] at h
      exact digitChar_inj_of_lt m hm n hn h
    · exfalso
      rw [reprAux_lt m hm, reprAux_ge n hn] at h
      have hlen := congrArg List.length h
      simp only [List.length_singleton, List.length_append] at hlen
      have : (reprAux (n / 10)).length = 0 := by omega
      exact reprAux_ne_nil _ (List.length_eq_zero.mp this)
    · exfalso
      rw [reprAux_ge m hm, reprAux_lt n hn] at h
      have hlen := congrArg List.length h
      simp only [List.length_singleton, List.length_append] at hlen
      have : (reprAux (m / 10)).length = 0 := by omega
      exact reprAux_ne_nil _ (List.length_eq_zero.mp this)
    · rw [reprAux_ge m hm, reprAux_ge n hn] at h
      have hrev := congrArg List.reverse h
      simp only [List.reverse_append, List.reverse_singleton, List.singleton_append,
        List.cons.injEq] at hrev
      have hmod := digitChar_inj_of_lt _ (Nat.mod_lt _ (by omega)) _
        (Nat.mod_lt _ (by omega)) hrev.1
      have hdiv := ih (m / 10) (Nat.div_lt_self (by omega) (by omega)) (n / 10)
        (List.reverse_injective hrev.2)
      omega

theorem natRepr_data (n : Nat) : (Nat.repr n).data = reprAux n := by
  show ((Nat.toDigits 10 n).asString).data = reprAux n
  rw [toDigits_eq_reprAux]
  rfl

theorem natRepr_inj (m n : Nat) (h : Nat.repr m = Nat.repr n) : m = n :=
  reprAux_inj m n (by rw [← natRepr_data, ← natRepr_data, h])

theorem natRepr_no_underscore (n : Nat) : ∀ c ∈ (Nat.repr n).data, c ≠ '_' := by
  intro c hc he
  rw [natRepr_data] at hc
  have := reprAux_isDigit n c hc
  rw [he] at this
  exact absurd this (by decide)

theorem splitAtSep :
    ∀ (xs ys zs ws : List Char), (∀ c ∈ xs, c ≠ '_') → (∀ c ∈ ys, c ≠ '_') →
      xs ++ '_' :: zs = ys ++ '_' :: ws → xs = ys ∧ zs = ws := by
  intro xs
  induction xs with
  | nil =>
    intro ys zs ws _ hys h
    cases ys with
    | nil => simpa using h
    | cons y ys' =>
      exfalso
      simp only [List.nil_append, List.cons_append, List.cons.injEq] at h
      exact hys y (List.mem_cons_self _ _) h.1.symm
  | cons x xs' ih =>
    intro ys zs ws hxs hys h
    cases ys with
    | nil =>
      exfalso
      simp only [List.nil_append, List.cons_append, List.cons.injEq] at h
      exact hxs x (List.mem_cons_self _ _) h.1
    | cons y ys' =>
      simp only [List.cons_append, List.cons.injEq] at h
      obtain ⟨hxy, hrest⟩ := h
      obtain ⟨h1, h2⟩ := ih ys' zs ws (fun c hc => hxs c (List.mem_cons_of_mem _ hc))
        (fun c hc => hys c (List.mem_cons_of_mem _ hc)) hrest
      exact ⟨by rw [hxy, h1], h2⟩

/-! ## add_documents (vector_store.py 35-58) and clear (vector_store.py 105-114) -/

/-- Record id from vector_store.py line 46:
`f"doc_{i}_{hash(doc.page_content) % 100000}"`.  Python `hash` on strings is
an opaque per-process function, so it is injected as `h`. -/
def recordId (h : String → Nat) (i : Nat) (content : String) : String :=
  "doc_" ++ Nat.repr i ++ "_" ++ Nat.repr (h content % 100000)

def mkRecord (h : String → Nat) (i : Nat) (d : Doc) : VRecord :=
  ⟨recordId h i d.page_content, d.page_content, d.metadata⟩

/-- `enumerate(documents)` in vector_store.py line 46: positions count from 0
within THIS call's list (the counter restarts on every `add_documents` call). -/
def mkRecordsFrom (h : String → Nat) (i : Nat) : List Doc → List VRecord
  | [] => []
  | d :: ds => mkRecord h i d :: mkRecordsFrom h (i + 1) ds

def mkRecords (h : String → Nat) (docs : List Doc) : List VRecord :=
  mkRecordsFrom h 0 docs

/-- The batch slices `ids[start:end]` etc. for `start in range(0, len, 100)`
(vector_store.py lines 51-58): take a 100-slice, continue after it.  The
`fuel` argument only bounds the number of loop iterations so the recursion is
structural; with `fuel = length` (as `chunk100` passes) it is never exhausted,
since each iteration drops at least one element of a non-empty list. -/
def chunk100Fuel : Nat → List VRecord → List (List VRecord)
  | _, [] => []
  | 0, _ :: _ => []
  | fuel + 1, r :: rs => ((r :: rs).take 100) :: chunk100Fuel fuel ((r :: rs).drop 100)

def chunk100 (l : List VRecord) : List (List VRecord) :=
  chunk100Fuel l.length l

/-- One `collection.add` per batch: the storage collaborator's outcome for the
b-th add call is injected as `orc b` (`none` = committed, `some e` = the call
raised exception `e`).  On a raise the Python loop aborts: earlier batches stay
committed in the collection state and the exception value `e` propagates to
the caller unchanged (second component). -/
def runBatches (orc : Nat → Option String) :
    List (List VRecord) → Nat → List VRecord → List VRecord × Option String
  | [], _, st => (st, none)
  | b :: bs, i, st =>
    match orc i with
    | some e => (st, some e)
    | none => runBatches orc bs (i + 1) (st ++ b)

/-- `add_documents` (vector_store.py 35-58). -/
def addDocuments (h : String → Nat) (orc : Nat → Option String)
    (st : List VRecord) (docs : List Doc) : List VRecord × Option String :=
  runBatches orc (chunk100 (mkRecords h docs)) 0 st

/-- `clear` (vector_store.py 105-114): the whole body sits in
`try: ... except Exception: pass`, so on a storage failure (`some e`) the
exception is swallowed — the state is left as it was and NO error reaches the
caller (the surfaced-error component is always `none`). -/
def clearModel : Option String → List VRecord → List VRecord × Option String
  | some _, st => (st, none)
  | none, _ => ([], none)

theorem runBatches_first_fail (orc : Nat → Option String) (e : String) :
    ∀ (bs : List (List VRecord)) (i f : Nat) (st : List VRecord),
      (∀ j, j < f → orc (i + j) = none) → orc (i + f) = some e → f < bs.length →
      runBatches orc bs i st = (st ++ (bs.take f).flatten, some e) := by
  intro bs
  induction bs with
  | nil =>
    intro i f st _ _ hlen
    simp at hlen
  | cons b bs ih =>
    intro i f st hnone hf hlen
    cases f with
    | zero =>
      have h0 : orc i = some e := by simpa using hf
      simp [runBatches, h0]
    | succ f' =>
      have h0 : orc i = none := by
        have := hnone 0 (Nat.succ_pos f')
        simpa using this
      have hrec := ih (i + 1) f' (st ++ b)
        (fun j hj => by
          have := hnone (j + 1) (by omega)
          rwa [show i + (j + 1) = i + 1 + j by omega] at this)
        (by rwa [show i + (f' + 1) = i + 1 + f' by omega] at hf)
        (by simp only [List.length_cons] at hlen; omega)
      simp only [runBatches, h0, hrec, List.take_succ_cons, List.flatten_cons,
        List.append_assoc]

def docX : Doc := ⟨"x", ⟨some "f.pdf", some 1, some 1, some "pdf", none⟩⟩

def failSecondBatch : Nat → Option String := fun b => if b = 1 then some "io error" else none

def failThirdBatch : Nat → Option String := fun b => if b = 2 then some "io error" else none

set_option maxRecDepth 40000 in
/-- C4 counterexample: at a 150-document insert failing on its second batch and
a 250-document insert failing on its third batch, the committed counts differ
(100 vs 200 records — earlier batches do remain persisted) yet the error value
surfaced to the caller is the SAME raw `"io error"` in both runs, so it cannot
carry the committed count; and `clear` under a failing storage collaborator
surfaces no error at all (the exception is swallowed by `except: pass`), it
does not propagate. -/
theorem C4_error_counterexample :
    (addDocuments String.length failSecondBatch [] (List.replicate 150 docX)).1.length = 100
    ∧ (addDocuments String.length failThirdBatch [] (List.replicate 250 docX)).1.length = 200
    ∧ (addDocuments String.length failSecondBatch [] (List.replicate 150 docX)).2
        = some "io error"
    ∧ (addDocuments String.length failThirdBatch [] (List.replicate 250 docX)).2
        = (addDocuments String.length failSecondBatch [] (List.replicate 150 docX)).2
    ∧ clearModel (some "disk full") [mkRecord String.length 0 docX]
        = ([mkRecord String.length 0 docX], none) := by
  refine ⟨by decide, by decide, by decide, by decide, rfl⟩

/-- C4 (amended): when the `orc f`-th batch is the first to fail during
`add_documents`, the batches before it remain persisted (no rollback) and the
caller receives the raw storage exception `e` unchanged — with no count of
committed records attached; and a storage error during `clear` is silently
swallowed: `clear` never surfaces an error to the caller. -/
theorem C4_partial_batch_amended :
    (∀ (h : String → Nat) (orc : Nat → Option String) (st : List VRecord)
        (docs : List Doc) (f : Nat) (e : String),
      (∀ j, j < f → orc j = none) → orc f = some e →
      f < (chunk100 (mkRecords h docs)).length →
      addDocuments h orc st docs
        = (st ++ ((chunk100 (mkRecords h docs)).take f).flatten, some e))
    ∧ (∀ (o : Option String) (st : List VRecord), (clearModel o st).2 = none) := by
  constructor
  · intro h orc st docs f e hnone hf hlen
    exact runBatches_first_fail orc e _ 0 f st
      (fun j hj => by simpa using hnone j hj) (by simpa using hf) hlen
  · intro o st
    cases o <;> rfl

set_option maxRecDepth 40000 in
/-- Witness for C4 (amended) at a concrete 150-document insert whose second
batch fails, and a concrete failing clear. -/
theorem C4_partial_batch_amended_witness :
    (∀ j, j < 1 → failSecondBatch j = none)
    ∧ failSecondBatch 1 = some "io error"
    ∧ 1 < (chunk100 (mkRecords String.length (List.replicate 150 docX))).length
    ∧ addDocuments String.length failSecondBatch [] (List.replicate 150 docX)
        = ([] ++ ((chunk100 (mkRecords String.length
            (List.replicate 150 docX))).take 1).flatten, some "io error")
    ∧ (clearModel (some "disk full") []).2 = none :=
  ⟨by decide, rfl, by decide,
   C4_partial_batch_amended.1 String.length failSecondBatch [] (List.replicate 150 docX)
     1 "io error" (by decide) rfl (by decide),
   C4_partial_batch_amended.2 (some "disk full") []⟩

theorem strData_append (a b : String) : (a ++ b).data = a.data ++ b.data := rfl

theorem underscoreData : ("_" : String).data = ['_'] := rfl

/-- Two record ids can only coincide if their enumerate positions coincide:
the position sits between the literal `"doc_"` and the first later `'_'`, and
decimal representations contain no underscore. -/
theorem recordId_inj_index (h h' : String → Nat) (i j : Nat) (c c' : String)
    (heq : recordId h i c = recordId h' j c') : i = j := by
  have hd := congrArg String.data heq
  simp only [recordId, strData_append, List.append_assoc, underscoreData,
    List.singleton_append] at hd
  have h1 : (Nat.repr i).data ++ ('_' :: (Nat.repr (h c % 100000)).data)
      = (Nat.repr j).data ++ ('_' :: (Nat.repr (h' c' % 100000)).data) :=
    List.append_cancel_left hd
  obtain ⟨hrepr, -⟩ := splitAtSep _ _ _ _ (natRepr_no_underscore i)
    (natRepr_no_underscore j) h1
  exact reprAux_inj i j (by rw [← natRepr_data, ← natRepr_data]; exact hrepr)

theorem mkRecordsFrom_mem_id (h : String → Nat) :
    ∀ (i : Nat) (ds : List Doc) (s : String),
      s ∈ (mkRecordsFrom h i ds).map (fun r => r.id) →
      ∃ j c, i ≤ j ∧ s = recordId h j c := by
  intro i ds
  induction ds generalizing i with
  | nil => intro s hs; simp [mkRecordsFrom] at hs
  | cons d ds ih =>
    intro s hs
    simp only [mkRecordsFrom, List.map_cons, List.mem_cons] at hs
    rcases hs with hs | hs
    · exact ⟨i, d.page_content, le_refl i, hs⟩
    · obtain ⟨j, c, hij, hjs⟩ := ih (i + 1) s hs
      exact ⟨j, c, by omega, hjs⟩

/-- C5 (amended): a record id is a deterministic function of the content hash
residue and of the position of the record within ITS OWN insert call
(`f"doc_{i}_{hash(content) % 100000}"`), and within a single `add_documents`
call all ids are pairwise distinct; but the enumerate counter restarts at 0 on
every call, so ids can collide across distinct insert calls (see the
counterexample). -/
theorem C5_ids_amended :
    (∀ (h h' : String → Nat) (i : Nat) (c c' : String),
        h c % 100000 = h' c' % 100000 → recordId h i c = recordId h' i c')
    ∧ (∀ (h : String → Nat) (docs : List Doc),
        ((mkRecords h docs).map (fun r => r.id)).Nodup) := by
  constructor
  · intro h h' i c c' hh
    simp [recordId, hh]
  · intro h docs
    have main : ∀ (i : Nat) (ds : List Doc),
        ((mkRecordsFrom h i ds).map (fun r => r.id)).Nodup := by
      intro i ds
      induction ds generalizing i with
      | nil => simp [mkRecordsFrom]
      | cons d ds ih =>
        simp only [mkRecordsFrom, List.map_cons, List.nodup_cons]
        refine ⟨fun hmem => ?_, ih (i + 1)⟩
        obtain ⟨j, c, hij, hs⟩ := mkRecordsFrom_mem_id h (i + 1) ds _ hmem
        have := recordId_inj_index h h i j d.page_content c hs
        omega
    exact main 0 docs

/-- Witness for C5 (amended): two different contents with equal hash residue
get the same id at the same position, and a concrete three-document insert
call gets pairwise distinct ids. -/
theorem C5_ids_amended_witness :
    (String.length "x" % 100000 = String.length "y" % 100000
      ∧ recordId String.length 3 "x" = recordId String.length 3 "y")
    ∧ ((mkRecords String.length [docX, docX, docX]).map (fun r => r.id)).Nodup :=
  ⟨⟨rfl, C5_ids_amended.1 String.length String.length 3 "x" "y" rfl⟩,
   C5_ids_amended.2 String.length [docX, docX, docX]⟩

set_option maxRecDepth 4000 in
/-- C5 counterexample: two successive one-document `add_documents` calls with
the same content produce the SAME id `"doc_0_1"` twice (the enumerate counter
restarts per call and the hash of equal contents is equal, whatever `hash`
is), so ids are NOT unique across insert calls. -/
theorem C5_id_collision_counterexample :
    ((addDocuments String.length (fun _ => none)
        (addDocuments String.length (fun _ => none) [] [docX]).1 [docX]).1.map
          (fun r => r.id))
      = ["doc_0_1", "doc_0_1"]
    ∧ ¬ ((addDocuments String.length (fun _ => none)
        (addDocuments String.length (fun _ => none) [] [docX]).1 [docX]).1.map
          (fun r => r.id)).Nodup := by
  refine ⟨by decide, by decide⟩

/-! ## rag_chain.py: prompts, history window, context string, generate_answer -/

def STRICT_SYSTEM_PROMPT : String :=
  "You are a precise document assistant. Your ONLY job is to answer questions using the provided document context.\n\nSTRICT RULES:\n1. Answer ONLY based on the information in the \"Document Context\" section below.\n2. If the answer is NOT found in the context, respond with: \"⚠️ I don't have enough information in the uploaded documents to answer this question.\"\n3. NEVER use your general knowledge or make assumptions beyond what the documents state.\n4. Always be specific and quote or reference the relevant parts of the documents.\n5. When citing information, mention the source document name."

def HYBRID_SYSTEM_PROMPT : String :=
  "You are a knowledgeable assistant with access to uploaded documents. Your job is to provide helpful, accurate answers.\n\nRULES:\n1. Use the provided \"Document Context\" as your PRIMARY source of information.\n2. If the document context contains relevant information, base your answer on it and cite the source.\n3. If the document context is insufficient, you MAY supplement with your general knowledge, but clearly indicate when you are doing so by saying \"Based on general knowledge:\" or similar.\n4. Always prioritize document-grounded answers over general knowledge.\n5. When citing information from documents, mention the source document name."

structure ChatMsg where
  role : String
  content : String
deriving DecidableEq, Repr

/-- The role-dispatch loop of `_format_chat_history` (rag_chain.py 70-75):
`"user"` and `"assistant"` entries are forwarded, anything else is skipped. -/
def historyMsgs : List (String × String) → List ChatMsg
  | [] => []
  | (r, c) :: rest =>
    if r = "user" then ChatMsg.mk "user" c :: historyMsgs rest
    else if r = "assistant" then ChatMsg.mk "assistant" c :: historyMsgs rest
    else historyMsgs rest

/-- `_format_chat_history` (rag_chain.py 65-75): `chat_history[-(max_turns*2):]`
then the role dispatch.  The zero guard mirrors Python slicing: `[-0:]` is the
whole list (the repository only calls this with the default `max_turns = 5`). -/
def formatChatHistory (maxTurns : Nat) (hist : List (String × String)) : List ChatMsg :=
  historyMsgs (if maxTurns * 2 = 0 then hist else hist.drop (hist.length - maxTurns * 2))

/-- The location line of `_build_context_string` (rag_chain.py 54-58). -/
def locationLine (d : Doc) : String :=
  "Source: " ++ d.metadata.source.getD "Unknown"
    ++ (if optTruthy d.metadata.page then ", Page " ++ optNatStr d.metadata.page else "")
    ++ (if optTruthy d.metadata.chunk then ", Chunk " ++ optNatStr d.metadata.chunk else "")

/-- The blocks of `_build_context_string` for `enumerate(retrieved_docs, 1)`. -/
def contextBlocksFrom (i : Nat) : List Doc → List String
  | [] => []
  | d :: ds =>
    ("[" ++ toString i ++ "] " ++ locationLine d ++ "\n" ++ d.page_content)
      :: contextBlocksFrom (i + 1) ds

/-- `_build_context_string` (rag_chain.py 43-62). -/
def buildContextString (docs : List Doc) : String :=
  if docs = [] then "No relevant documents found."
  else String.intercalate "\n\n---\n\n" (contextBlocksFrom 1 docs)

structure AnswerResult where
  answer : String
  sources : List Citation
deriving DecidableEq, Repr

/-- `generate_answer` (rag_chain.py 106-168).  The generation collaborator
(`client.chat.completions.create` + `.choices[0].message.content`) is injected
as `complete messages temperature maxTokens`: `Except.ok a` is a successful
completion text, `Except.error e` an exception rendered by `str(e)`.  It is
consulted exactly once — there is no retry in the source. -/
def generateAnswer (complete : List ChatMsg → ℚ → Nat → Except String String)
    (question : String) (docs : List Doc) (hist : List (String × String))
    (mode : String) : AnswerResult :=
  let system_prompt := if mode = "strict" then STRICT_SYSTEM_PROMPT else HYBRID_SYSTEM_PROMPT
  let context_string := buildContextString docs
  let user_message := "Document Context:\n" ++ context_string ++ "\n\nQuestion: "
      ++ question ++ "\n\nPlease provide a detailed answer based on the above context."
  let messages := ChatMsg.mk "system" system_prompt
    :: (formatChatHistory 5 hist ++ [ChatMsg.mk "user" user_message])
  let temperature : ℚ := if mode = "strict" then 3 / 10 else 5 / 10
  let answer :=
    match complete messages temperature 1024 with
    | Except.ok a => a
    | Except.error e => "❌ Error generating response: " ++ e
  AnswerResult.mk answer (extractSources docs [])

theorem historyMsgs_filter (l : List (String × String)) :
    historyMsgs l
      = (l.filter (fun p => p.1 == "user" || p.1 == "assistant")).map
          (fun p => ChatMsg.mk p.1 p.2) := by
  induction l with
  | nil => rfl
  | cons p l ih =>
    obtain ⟨r, c⟩ := p
    by_cases hu : r = "user"
    · subst hu
      simp [historyMsgs, List.filter_cons, ih]
    · by_cases ha : r = "assistant"
      · subst ha
        simp [historyMsgs, List.filter_cons, ih]
      · simp [historyMsgs, List.filter_cons, hu, ha, ih]

/-- C6: when the generation collaborator fails with any exception `e`, the
orchestrator neither throws (`generateAnswer` is total) nor retries (the
collaborator is consulted once, by construction): it returns the in-band error
answer `"❌ Error generating response: " ++ e` together with the citations
computed from the retrieved results — identical to the citations produced when
generation succeeds. -/
theorem C6_generation_failure_recovery (e question : String) (docs : List Doc)
    (hist : List (String × String)) (mode : String) :
    generateAnswer (fun _ _ _ => Except.error e) question docs hist mode
      = AnswerResult.mk ("❌ Error generating response: " ++ e) (extractSources docs [])
    ∧ ∀ a : String,
        (generateAnswer (fun _ _ _ => Except.ok a) question docs hist mode).sources
          = (generateAnswer (fun _ _ _ => Except.error e) question docs hist mode).sources :=
  ⟨rfl, fun _ => rfl⟩

/-- C7: the message sequence handed to the generation collaborator is exactly
the mode's system policy message, then the windowed history, then one user
message embedding the assembled context string followed by the literal
question; and on histories whose entries all carry role `"user"` or
`"assistant"` (the `ConversationTurn` data model), the windowed history is
exactly the last `min 10 (length hist)` turns, in order. -/
theorem C7_message_sequence (f : List ChatMsg → String) (question : String)
    (docs : List Doc) (hist : List (String × String)) (mode : String) :
    ((generateAnswer (fun msgs _ _ => Except.ok (f msgs)) question docs hist mode).answer
      = f (ChatMsg.mk "system"
            (if mode = "strict" then STRICT_SYSTEM_PROMPT else HYBRID_SYSTEM_PROMPT)
          :: (formatChatHistory 5 hist
            ++ [ChatMsg.mk "user"
                  ("Document Context:\n" ++ buildContextString docs ++ "\n\nQuestion: "
                    ++ question
                    ++ "\n\nPlease provide a detailed answer based on the above context.")])))
    ∧ ((∀ p ∈ hist, p.1 = "user" ∨ p.1 = "assistant") →
        formatChatHistory 5 hist
          = (hist.drop (hist.length - 10)).map (fun p => ChatMsg.mk p.1 p.2)
        ∧ (formatChatHistory 5 hist).length = min 10 hist.length) := by
  constructor
  · rfl
  · intro hroles
    have hfl : (hist.drop (hist.length - 10)).filter
        (fun p => p.1 == "user" || p.1 == "assistant") = hist.drop (hist.length - 10) := by
      rw [List.filter_eq_self]
      intro p hp
      rcases hroles p (List.drop_subset _ _ hp) with h | h <;> simp [h]
    constructor
    · show historyMsgs (hist.drop (hist.length - 10)) = _
      rw [historyMsgs_filter, hfl]
    · show (historyMsgs (hist.drop (hist.length - 10))).length = _
      rw [historyMsgs_filter, hfl, List.length_map, List.length_drop]
      omega

def histW : List (String × String) := [("user", "hello"), ("assistant", "hi")]

/-- Witness for C7 on a concrete well-formed two-turn history. -/
theorem C7_message_sequence_witness :
    formatChatHistory 5 histW
        = (histW.drop (histW.length - 10)).map (fun p => ChatMsg.mk p.1 p.2)
    ∧ (formatChatHistory 5 histW).length = min 10 histW.length :=
  (C7_message_sequence (fun _ => "") "q" [] histW "strict").2 (by decide)

def hist0 : List (String × String) :=
  [("user", "u0"), ("system", "s1"), ("user", "u1"), ("assistant", "a1"),
   ("user", "u2"), ("assistant", "a2"), ("user", "u3"), ("assistant", "a3"),
   ("user", "u4"), ("assistant", "a4"), ("user", "u5")]

/-- C10: `_format_chat_history` first slices the last 10 entries and only then
filters by role; on the concrete 11-entry history `hist0` whose window contains
a `"system"` entry, that entry consumes a window slot and is dropped, so only
9 messages survive — fewer than `min 10 (length hist0) = 10` — while the
11th-from-end valid `"user"` turn `"u0"` is not included either. -/
theorem C10_window_then_filter :
    (∀ hist : List (String × String),
      formatChatHistory 5 hist
        = ((hist.drop (hist.length - 10)).filter
            (fun p => p.1 == "user" || p.1 == "assistant")).map
            (fun p => ChatMsg.mk p.1 p.2))
    ∧ (formatChatHistory 5 hist0).length = 9
    ∧ min 10 hist0.length = 10
    ∧ (((formatChatHistory 5 hist0).map (fun m => m.content)).contains "u0") = false := by
  refine ⟨?_, by decide, by decide, by decide⟩
  intro hist
  show historyMsgs (hist.drop (hist.length - 10)) = _
  rw [historyMsgs_filter]

/-! ## ingest.py: extension dispatch and multi-file ingestion -/

structure UploadedFile where
  name : String
deriving DecidableEq, Repr

/-- The parser collaborators `_load_pdf` / `_load_docx` / `_load_csv` depend on
external libraries (pypdf, python-docx, pandas) and are injected opaquely. -/
structure Parsers where
  pdf : UploadedFile → List Doc
  docx : UploadedFile → List Doc
  csv : UploadedFile → List Doc

/-- `os.path.splitext(p)[1]` (POSIX): the suffix of the final path component
starting at its last `'.'`, except that a final component consisting of leading
dots only has no extension (`".bashrc"`, `"..."` → `""`). -/
def splitextExt (p : String) : String :=
  let base := (p.data.reverse.takeWhile (fun c => c ≠ '/')).reverse
  let after := base.reverse.takeWhile (fun c => c ≠ '.')
  if after.length = base.length then ""
  else if (base.reverse.drop (after.length + 1)).any (fun c => c ≠ '.') then
    String.mk ('.' :: after.reverse)
  else ""

/-- Python `str.lower()` restricted to the ASCII range (extensions are ASCII;
`Char.toLower` agrees with Python there). -/
def lowerStr (s : String) : String :=
  String.mk (s.data.map Char.toLower)

/-- The spec's `UnsupportedTypeError`: the `ValueError("Unsupported file type:
...")` raised at ingest.py line 128. -/
inductive IngestError where
  | unsupportedType (ext : String)
deriving DecidableEq, Repr

/-- `ingest_file` (ingest.py 111-129): `_LOADER_MAP.get(ext)` over the lowered
extension, raising for any extension outside {.pdf, .docx, .csv}. -/
def ingestFile (P : Parsers) (f : UploadedFile) : Except IngestError (List Doc) :=
  let ext := lowerStr (splitextExt f.name)
  if ext = ".pdf" then Except.ok (P.pdf f)
  else if ext = ".docx" then Except.ok (P.docx f)
  else if ext = ".csv" then Except.ok (P.csv f)
  else Except.error (IngestError.unsupportedType ext)

/-- `ingest_files` (ingest.py 132-149): `all_docs.extend(ingest_file(file))`
in order; an exception from `ingest_file` aborts the loop and propagates,
discarding the partial accumulator. -/
def ingestFiles (P : Parsers) : List UploadedFile → Except IngestError (List Doc)
  | [] => Except.ok []
  | f :: fs =>
    match ingestFile P f with
    | Except.error e => Except.error e
    | Except.ok ds =>
      match ingestFiles P fs with
      | Except.error e => Except.error e
      | Except.ok rest => Except.ok (ds ++ rest)

/-- C8: for every uploaded file, if the lowered `splitext` extension of its
name is none of `.pdf`/`.docx`/`.csv` then `ingest_file` fails synchronously
with the unsupported-type error for that extension, and for each of the three
accepted extensions it dispatches to the corresponding parser and returns its
documents without that error. -/
theorem C8_unsupported_extension (P : Parsers) (f : UploadedFile) :
    (lowerStr (splitextExt f.name) ≠ ".pdf" →
      lowerStr (splitextExt f.name) ≠ ".docx" →
      lowerStr (splitextExt f.name) ≠ ".csv" →
      ingestFile P f = Except.error (IngestError.unsupportedType
        (lowerStr (splitextExt f.name))))
    ∧ (lowerStr (splitextExt f.name) = ".pdf" → ingestFile P f = Except.ok (P.pdf f))
    ∧ (lowerStr (splitextExt f.name) = ".docx" → ingestFile P f = Except.ok (P.docx f))
    ∧ (lowerStr (splitextExt f.name) = ".csv" → ingestFile P f = Except.ok (P.csv f)) := by
  refine ⟨fun h1 h2 h3 => ?_, fun h => ?_, fun h => ?_, fun h => ?_⟩
  · simp [ingestFile, h1, h2, h3]
  · simp [ingestFile, h]
  · have hne : lowerStr (splitextExt f.name) ≠ ".pdf" := by
      intro hc
      rw [hc] at h
      exact absurd h (by decide)
    simp [ingestFile, hne, h]
  · have hne1 : lowerStr (splitextExt f.name) ≠ ".pdf" := by
      intro hc
      rw [hc] at h
      exact absurd h (by decide)
    have hne2 : lowerStr (splitextExt f.name) ≠ ".docx" := by
      intro hc
      rw [hc] at h
      exact absurd h (by decide)
    simp [ingestFile, hne1, hne2, h]

def emptyParsers : Parsers := ⟨fun _ => [], fun _ => [], fun _ => []⟩

def fileTxt : UploadedFile := ⟨"notes.txt"⟩

def filePdfUpper : UploadedFile := ⟨"Report.PDF"⟩

/-- Witness for C8: a `.txt` upload is rejected with the unsupported-type
error; an upper-case `.PDF` upload dispatches to the pdf parser. -/
theorem C8_unsupported_extension_witness :
    lowerStr (splitextExt fileTxt.name) = ".txt"
    ∧ ingestFile emptyParsers fileTxt
        = Except.error (IngestError.unsupportedType (lowerStr (splitextExt fileTxt.name)))
    ∧ lowerStr (splitextExt filePdfUpper.name) = ".pdf"
    ∧ ingestFile emptyParsers filePdfUpper = Except.ok (emptyParsers.pdf filePdfUpper) :=
  ⟨by decide,
   (C8_unsupported_extension emptyParsers fileTxt).1 (by decide) (by decide) (by decide),
   by decide,
   (C8_unsupported_extension emptyParsers filePdfUpper).2.1 (by decide)⟩

/-- C9: `ingest_files` is the list homomorphism of `ingest_file`: the empty
list yields no documents, and whenever each file ingests individually to
`out i`, the whole list ingests to the in-order concatenation of the `out i`. -/
theorem C9_ingest_files_concat :
    (∀ P : Parsers, ingestFiles P [] = Except.ok [])
    ∧ (∀ (P : Parsers) (files : List UploadedFile) (out : List (List Doc)),
        List.Forall₂ (fun f ds => ingestFile P f = Except.ok ds) files out →
        ingestFiles P files = Except.ok out.flatten) := by
  constructor
  · intro P
    rfl
  · intro P files out hall
    induction hall with
    | nil => rfl
    | cons hfd htail ih =>
      simp only [ingestFiles, hfd, ih, List.flatten_cons]

def docP : Doc := ⟨"pdf text", ⟨some "r.pdf", some 1, some 1, some "pdf", none⟩⟩

def docC1 : Doc := ⟨"row 1", ⟨some "t.csv", none, some 1, some "csv", some "a, b"⟩⟩

def docC2 : Doc := ⟨"row 2", ⟨some "t.csv", none, some 2, some "csv", some "a, b"⟩⟩

def sampleParsers : Parsers :=
  ⟨fun _ => [docP], fun _ => [], fun _ => [docC1, docC2]⟩

def filePdf : UploadedFile := ⟨"r.pdf"⟩

def fileCsv : UploadedFile := ⟨"t.csv"⟩

/-- Witness for C9 on a concrete pdf + csv upload list. -/
theorem C9_ingest_files_concat_witness :
    ingestFile sampleParsers filePdf = Except.ok [docP]
    ∧ ingestFile sampleParsers fileCsv = Except.ok [docC1, docC2]
    ∧ ingestFiles sampleParsers [filePdf, fileCsv] = Except.ok [docP, docC1, docC2] := by
  refine ⟨rfl, rfl, ?_⟩
  have h := C9_ingest_files_concat.2 sampleParsers [filePdf, fileCsv] [[docP], [docC1, docC2]]
    (List.Forall₂.cons rfl (List.Forall₂.cons rfl List.Forall₂.nil))
  simpa using h
